import Mathlib

/-!
Verification of the data-transformation core of the UK crime dashboard
(`crime_dashboard.py`).

The Python program loads a flat table of crime incident records (pandas
DataFrame) and derives three views from it: a ranked bar chart, a
multi-series time line and a map of location centroids.  This file gives a
shallow embedding of the transformation pipeline:

* a record of the table is a `CrimeRecord`; a DataFrame is a `List CrimeRecord`;
* pandas float results (which may be NaN or infinite) are modelled by
  `PFloat`, an extended rational type; IEEE rounding is ignored, since no
  verified property depends on it;
* `re.sub` with the pattern of `extract_location_name` is modelled by an
  explicit suffix matcher on `List Char`; the Unicode character classes of
  the Python `re` module are restricted to their ASCII/Latin-1 fragment,
  which covers every string occurring in the dataset;
* pandas `groupby` (which sorts group keys) is modelled by sorting the
  deduplicated key list with an insertion sort under code-point order,
  the order Python uses for strings;
* the Dash callbacks `update_bar_chart`, `update_time_series` and
  `update_map` are modelled as pure functions of the loaded dataset and
  the request values; the module-level store that the callbacks read is
  threaded explicitly through the `_state` wrappers.
-/

namespace CrimeDashboard

/-! ## Character classes of the regular expression `\s\d+[A-Z]*$`

`isAsciiDigit` is the ASCII fragment of `\d`, `isUpperAZ` is the literal
class `[A-Z]`, and `isPyWs` is the ASCII/Latin-1 fragment of `\s`
(space, tab, newline, vertical tab, form feed, carriage return, the
file/group/record/unit separators, next line, and no-break space). -/

def isAsciiDigit (c : Char) : Bool := decide (48 ≤ c.toNat ∧ c.toNat ≤ 57)

def isUpperAZ (c : Char) : Bool := decide (65 ≤ c.toNat ∧ c.toNat ≤ 90)

def isPyWs (c : Char) : Bool :=
  decide (c.toNat = 32 ∨ c.toNat = 9 ∨ c.toNat = 10 ∨ c.toNat = 11 ∨ c.toNat = 12 ∨
          c.toNat = 13 ∨ c.toNat = 28 ∨ c.toNat = 29 ∨ c.toNat = 30 ∨ c.toNat = 31 ∨
          c.toNat = 133 ∨ c.toNat = 160)

theorem isUpperAZ_eq_false_of_digit {c : Char} (h : isAsciiDigit c = true) :
    isUpperAZ c = false := by
  simp only [isAsciiDigit, isUpperAZ, decide_eq_true_eq, decide_eq_false_iff_not] at *
  omega

theorem isAsciiDigit_eq_false_of_ws {c : Char} (h : isPyWs c = true) :
    isAsciiDigit c = false := by
  simp only [isPyWs, isAsciiDigit, decide_eq_true_eq, decide_eq_false_iff_not] at *
  omega

theorem isUpperAZ_eq_false_of_ws {c : Char} (h : isPyWs c = true) :
    isUpperAZ c = false := by
  simp only [isPyWs, isUpperAZ, decide_eq_true_eq, decide_eq_false_iff_not] at *
  omega

theorem isPyWs_eq_false_of_digit {c : Char} (h : isAsciiDigit c = true) :
    isPyWs c = false := by
  simp only [isPyWs, isAsciiDigit, decide_eq_true_eq, decide_eq_false_iff_not] at *
  omega

theorem isPyWs_eq_false_of_upper {c : Char} (h : isUpperAZ c = true) :
    isPyWs c = false := by
  simp only [isPyWs, isUpperAZ, decide_eq_true_eq, decide_eq_false_iff_not] at *
  omega

theorem ne_newline_of_digit {c : Char} (h : isAsciiDigit c = true) : c ≠ '\n' := by
  intro hc
  subst hc
  exact absurd h (by decide)

theorem ne_newline_of_upper {c : Char} (h : isUpperAZ c = true) : c ≠ '\n' := by
  intro hc
  subst hc
  exact absurd h (by decide)

/-! ## The location normalizer

Source (`crime_dashboard.py`, lines 24-25):

    def extract_location_name(lsoa_name):
        return re.sub(r"\s\d+[A-Z]*$", "", lsoa_name)

The pattern requires one whitespace character, then one or more digits,
then zero or more uppercase letters, anchored at the end.  Because the
three character classes are pairwise disjoint, a string admits at most one
such decomposition, so `re.sub` removes at most one occurrence.  The
matcher below scans the reversed string: it drops the maximal run of
uppercase letters, then the maximal (required non-empty) run of digits,
and then requires one whitespace character.  Python `$` also matches just
before a single trailing newline, which the branch on `getLast?` mirrors. -/

def pyStripSuffix (l : List Char) : Option (List Char) :=
  let l1 := l.dropWhile isUpperAZ
  let l2 := l1.dropWhile isAsciiDigit
  if l2.length < l1.length then
    match l2 with
    | [] => none
    | w :: rest => if isPyWs w then some rest else none
  else none

def extract_location_name (s : List Char) : List Char :=
  if s.getLast? = some '\n' then
    match pyStripSuffix s.dropLast.reverse with
    | some pRev => pRev.reverse ++ ['\n']
    | none => s
  else
    match pyStripSuffix s.reverse with
    | some pRev => pRev.reverse
    | none => s

/-- Modelled from the claim text of C2, not from the source: the claim
describes the stripped pattern as OPTIONAL whitespace followed by one or
more digits followed by zero or more uppercase letters, anchored at the
end of the string.  This definition follows those words so that it can be
compared with `extract_location_name`. -/
def specStripRev (l : List Char) : Option (List Char) :=
  let l1 := l.dropWhile isUpperAZ
  let l2 := l1.dropWhile isAsciiDigit
  if l2.length < l1.length then
    match l2 with
    | [] => some []
    | w :: rest => if isPyWs w then some rest else some (w :: rest)
  else none

/-- Modelled from the claim text of C2 (optional whitespace), see
`specStripRev`. -/
def specNormalize (s : List Char) : List Char :=
  match specStripRev s.reverse with
  | some pRev => pRev.reverse
  | none => s

/-- `hasCodeSuffix s` decides whether `s` ends (at the very end of the
string) with the pattern: one whitespace character, one or more digits,
zero or more uppercase letters. -/
def hasCodeSuffix (s : List Char) : Bool :=
  (pyStripSuffix s.reverse).isSome

theorem dropWhile_append_of_all {p : Char → Bool} {xs : List Char} (ys : List Char)
    (h : ∀ x ∈ xs, p x = true) : (xs ++ ys).dropWhile p = ys.dropWhile p := by
  induction xs with
  | nil => rfl
  | cons a t ih =>
    have ha : p a = true := h a (List.mem_cons_self a t)
    have ht : ∀ x ∈ t, p x = true := fun x hx => h x (List.mem_cons_of_mem a hx)
    simp [List.cons_append, List.dropWhile_cons, ha, ih ht]

/-- If the reversed input decomposes as uppercase run, digit run (non-empty),
one whitespace character, remainder, then the matcher strips exactly that
suffix and returns the remainder. -/
theorem pyStripSuffix_decomp {p ds us : List Char} {w : Char}
    (hw : isPyWs w = true) (hds : ∀ c ∈ ds, isAsciiDigit c = true) (hne : ds ≠ [])
    (hus : ∀ c ∈ us, isUpperAZ c = true) :
    pyStripSuffix ((p ++ w :: (ds ++ us)).reverse) = some p.reverse := by
  rcases List.eq_nil_or_concat ds with rfl | ⟨ds', d, rfl⟩
  · exact absurd rfl hne
  have hd : isAsciiDigit d = true := hds d (by simp)
  have hds' : ∀ c ∈ ds', isAsciiDigit c = true := fun c hc => hds c (by simp [hc])
  have hrev : (p ++ w :: (ds'.concat d ++ us)).reverse =
      us.reverse ++ (d :: (ds'.reverse ++ (w :: p.reverse))) := by
    simp [List.concat_eq_append, List.reverse_append]
  have husr : ∀ c ∈ us.reverse, isUpperAZ c = true :=
    fun c hc => hus c (List.mem_reverse.mp hc)
  have hdsr : ∀ c ∈ ds'.reverse, isAsciiDigit c = true :=
    fun c hc => hds' c (List.mem_reverse.mp hc)
  have h1 : ((p ++ w :: (ds'.concat d ++ us)).reverse).dropWhile isUpperAZ =
      d :: (ds'.reverse ++ (w :: p.reverse)) := by
    rw [hrev, dropWhile_append_of_all _ husr]
    simp [List.dropWhile_cons, isUpperAZ_eq_false_of_digit hd]
  have h2 : (d :: (ds'.reverse ++ (w :: p.reverse))).dropWhile isAsciiDigit =
      w :: p.reverse := by
    have : (d :: (ds'.reverse ++ (w :: p.reverse))) =
        (d :: ds'.reverse) ++ (w :: p.reverse) := by simp
    rw [this, dropWhile_append_of_all]
    · simp [List.dropWhile_cons, isAsciiDigit_eq_false_of_ws hw]
    · intro x hx
      rcases List.mem_cons.mp hx with rfl | hx
      · exact hd
      · exact hdsr x hx
  have hlen : (w :: p.reverse).length < (d :: (ds'.reverse ++ (w :: p.reverse))).length := by
    simp [List.length_cons, List.length_append]
    omega
  unfold pyStripSuffix
  simp only [h1, h2]
  rw [if_pos hlen]
  simp [hw]

/-- Inverse direction: a successful match exposes the decomposition of the
reversed input into an uppercase run, a digit run, one whitespace character
and the returned remainder. -/
theorem pyStripSuffix_some {l r : List Char} (h : pyStripSuffix l = some r) :
    ∃ us ds w, l = us ++ (ds ++ w :: r) ∧ (∀ c ∈ us, isUpperAZ c = true) ∧
      (∀ c ∈ ds, isAsciiDigit c = true) ∧ isPyWs w = true := by
  unfold pyStripSuffix at h
  simp only [] at h
  split at h
  · split at h
    · exact absurd h (by simp)
    · rename_i l2eq
      split at h
      · rename_i w rest hw
        refine ⟨l.takeWhile isUpperAZ, (l.dropWhile isUpperAZ).takeWhile isAsciiDigit, w,
          ?_, ?_, ?_, hw⟩
        · have e1 : l.takeWhile isUpperAZ ++ l.dropWhile isUpperAZ = l :=
            List.takeWhile_append_dropWhile isUpperAZ l
          have e2 : (l.dropWhile isUpperAZ).takeWhile isAsciiDigit ++
              (l.dropWhile isUpperAZ).dropWhile isAsciiDigit = l.dropWhile isUpperAZ :=
            List.takeWhile_append_dropWhile isAsciiDigit (l.dropWhile isUpperAZ)
          have hr : w :: rest = w :: r := by
            injection h with h
            rw [h]
          rw [← hr, ← l2eq, e2, e1]
        · exact fun c hc => List.mem_takeWhile_imp hc
        · exact fun c hc => List.mem_takeWhile_imp hc
      · exact absurd h (by simp)
  · exact absurd h (by simp)

theorem mem_of_getLast?_eq {l : List Char} {c : Char} (h : l.getLast? = some c) : c ∈ l := by
  have hh : l.reverse.head? = some c := by rw [List.head?_reverse]; exact h
  have : c ∈ l.reverse := List.mem_of_mem_head? (by rw [hh]; rfl)
  exact List.mem_reverse.mp this

/-- The last character of `prefix ++ ws :: digits ++ uppers` is a digit or an
uppercase letter, hence not a newline. -/
theorem getLast?_decomp_ne_newline {p ds us : List Char} {w : Char}
    (hds : ∀ c ∈ ds, isAsciiDigit c = true) (hne : ds ≠ [])
    (hus : ∀ c ∈ us, isUpperAZ c = true) :
    ¬ (p ++ w :: (ds ++ us)).getLast? = some '\n' := by
  intro h
  rcases List.eq_nil_or_concat us with rfl | ⟨us', u, rfl⟩
  · rcases List.eq_nil_or_concat ds with rfl | ⟨ds', d, rfl⟩
    · exact absurd rfl hne
    · have he : p ++ w :: (ds'.concat d ++ []) = (p ++ w :: ds') ++ [d] := by
        simp [List.concat_eq_append]
      rw [he, List.getLast?_concat] at h
      have : isAsciiDigit d = true := hds d (by simp)
      exact ne_newline_of_digit this (Option.some.inj h)
  · have he : p ++ w :: (ds ++ us'.concat u) = (p ++ w :: (ds ++ us')) ++ [u] := by
      simp [List.concat_eq_append]
    rw [he, List.getLast?_concat] at h
    have : isUpperAZ u = true := hus u (by simp)
    exact ne_newline_of_upper this (Option.some.inj h)

/-- If the input decomposes as `prefix ++ ws :: digits ++ uppers`, the
normalizer strips that suffix and returns the prefix. -/
theorem extract_decomp {p ds us : List Char} {w : Char}
    (hw : isPyWs w = true) (hds : ∀ c ∈ ds, isAsciiDigit c = true) (hne : ds ≠ [])
    (hus : ∀ c ∈ us, isUpperAZ c = true) :
    extract_location_name (p ++ w :: (ds ++ us)) = p := by
  have hstrip := pyStripSuffix_decomp (p := p) hw hds hne hus
  have hlast := getLast?_decomp_ne_newline (p := p) (w := w) hds hne hus
  unfold extract_location_name
  rw [if_neg hlast, hstrip]
  simp

/-- Variant with a single trailing newline: Python `$` also matches just
before the final newline, so the suffix before the newline is stripped and
the newline is kept. -/
theorem extract_decomp_newline {p ds us : List Char} {w : Char}
    (hw : isPyWs w = true) (hds : ∀ c ∈ ds, isAsciiDigit c = true) (hne : ds ≠ [])
    (hus : ∀ c ∈ us, isUpperAZ c = true) :
    extract_location_name ((p ++ w :: (ds ++ us)) ++ ['\n']) = p ++ ['\n'] := by
  have hstrip := pyStripSuffix_decomp (p := p) hw hds hne hus
  unfold extract_location_name
  rw [if_pos (List.getLast?_concat _), List.dropLast_concat, hstrip]
  simp

/-- If no whitespace-digits-uppercase suffix matches, neither at the end of
the string nor just before a single trailing newline, the input is returned
unchanged. -/
theorem extract_unchanged {s : List Char} (h1 : hasCodeSuffix s = false)
    (h2 : s.getLast? = some '\n' → hasCodeSuffix s.dropLast = false) :
    extract_location_name s = s := by
  unfold extract_location_name
  by_cases hl : s.getLast? = some '\n'
  · rw [if_pos hl]
    have hd := h2 hl
    unfold hasCodeSuffix at hd
    rcases hstrip : pyStripSuffix s.dropLast.reverse with _ | r
    · rfl
    · rw [hstrip] at hd
      exact absurd hd (by simp)
  · rw [if_neg hl]
    unfold hasCodeSuffix at h1
    rcases hstrip : pyStripSuffix s.reverse with _ | r
    · rfl
    · rw [hstrip] at h1
      exact absurd h1 (by simp)

/-- A string with no whitespace character is a fixed point of the
normalizer, since every match contains a whitespace character. -/
theorem extract_of_no_ws {t : List Char} (ht : t.countP isPyWs = 0) :
    extract_location_name t = t := by
  have hall : ∀ c ∈ t, ¬ isPyWs c = true := List.countP_eq_zero.mp ht
  have hnostrip : ∀ (l : List Char), (∀ c ∈ l, ¬ isPyWs c = true) →
      pyStripSuffix l.reverse = none := by
    intro l hl
    rcases hstrip : pyStripSuffix l.reverse with _ | r
    · rfl
    · obtain ⟨us, ds, w, he, _, _, hw⟩ := pyStripSuffix_some hstrip
      have : w ∈ l.reverse := by rw [he]; simp
      exact absurd hw (hl w (List.mem_reverse.mp this))
  have hlast : ¬ t.getLast? = some '\n' := by
    intro h
    exact hall '\n' (mem_of_getLast?_eq h) (by decide)
  unfold extract_location_name
  rw [if_neg hlast, hnostrip t hall]

/-- C2 counterexample: the claim says the stripped whitespace is optional,
and that a string consisting entirely of the numeric suffix (here "001A",
digits then uppercase letters with no whitespace) returns the empty string.
The code requires one whitespace character, so it leaves "001A" unchanged,
while the definition following the claim text (`specNormalize`) maps it to
the empty string. -/
theorem c2_counterexample :
    extract_location_name ("001A".data) = "001A".data ∧
    specNormalize ("001A".data) = [] ∧
    ¬ ("001A".data : List Char) = [] := by
  refine ⟨by decide, by decide, by decide⟩

/-- C2 (amended): for every input, the normalizer strips exactly one
trailing pattern of ONE MANDATORY whitespace character followed by one or
more digits followed by zero or more uppercase letters; the same pattern is
also stripped just before a single trailing newline (the `$` anchor of the
Python `re` module); a string consisting entirely of the pattern
(whitespace included) yields the empty string; and an input with no such
trailing pattern is returned unchanged. -/
theorem c2_amended_normalizer_contract :
    (∀ (p ds us : List Char) (w : Char), isPyWs w = true →
      (∀ c ∈ ds, isAsciiDigit c = true) → ds ≠ [] →
      (∀ c ∈ us, isUpperAZ c = true) →
      extract_location_name (p ++ w :: (ds ++ us)) = p ∧
      extract_location_name ((p ++ w :: (ds ++ us)) ++ ['\n']) = p ++ ['\n'] ∧
      extract_location_name (w :: (ds ++ us)) = []) ∧
    (∀ s : List Char, hasCodeSuffix s = false →
      (s.getLast? = some '\n' → hasCodeSuffix s.dropLast = false) →
      extract_location_name s = s) := by
  constructor
  · intro p ds us w hw hds hne hus
    refine ⟨extract_decomp hw hds hne hus, extract_decomp_newline hw hds hne hus, ?_⟩
    have h := extract_decomp (p := []) hw hds hne hus
    simpa using h
  · intro s h1 h2
    exact extract_unchanged h1 h2

/-- C2 witness: concrete instance of the amended contract, on the
shape of a real fine-grained area name. -/
theorem c2_witness :
    extract_location_name ("Westminster 001A".data) = "Westminster".data := by
  have h := c2_amended_normalizer_contract.1 ("Westminster".data) ("001".data) ("A".data) ' '
      (by decide) (by decide) (by decide) (by decide)
  have he : "Westminster".data ++ ' ' :: ("001".data ++ "A".data) = "Westminster 001A".data := by
    decide
  rw [he] at h
  exact h.1

/-- C3 counterexample: the normalizer is not idempotent.  On "A 1 2B" the
regular expression strips the suffix " 2B", leaving "A 1", which itself
still ends with a whitespace-digits pattern, so a second application strips
" 1" as well. -/
theorem c3_counterexample :
    ¬ extract_location_name (extract_location_name ("A 1 2B".data)) =
      extract_location_name ("A 1 2B".data) := by
  decide

/-- C3 (amended): the normalizer is idempotent on every input containing at
most one whitespace character.  (Real area names such as "Westminster 001A"
contain exactly one.)  A single application removes the only whitespace
character if it strips at all, so the result has no whitespace and is a
fixed point. -/
theorem c3_amended_idempotent_le_one_ws (s : List Char) (hs : s.countP isPyWs ≤ 1) :
    extract_location_name (extract_location_name s) = extract_location_name s := by
  by_cases hl : s.getLast? = some '\n'
  · rcases hstrip : pyStripSuffix s.dropLast.reverse with _ | r
    · have hres : extract_location_name s = s := by
        unfold extract_location_name
        rw [if_pos hl, hstrip]
      rw [hres]
      exact hres
    · exfalso
      obtain ⟨us, ds, w, he, _, _, hw⟩ := pyStripSuffix_some hstrip
      have h2 : w ∈ s.dropLast := List.mem_reverse.mp (by rw [he]; simp)
      have hsplit : s = s.dropLast ++ ['\n'] := by
        rcases List.eq_nil_or_concat s with rfl | ⟨t, b, rfl⟩
        · simp at hl
        · rw [List.concat_eq_append, List.getLast?_concat] at hl
          rw [List.concat_eq_append, List.dropLast_concat, Option.some.inj hl]
      have hone : List.countP isPyWs ['\n'] = 1 := by decide
      have hcount : s.countP isPyWs = s.dropLast.countP isPyWs + 1 := by
        conv in s.countP isPyWs => rw [hsplit]
        rw [List.countP_append, hone]
      have hw' : 1 ≤ s.dropLast.countP isPyWs :=
        List.countP_pos_iff.mpr ⟨w, h2, hw⟩
      omega
  · rcases hstrip : pyStripSuffix s.reverse with _ | r
    · have hres : extract_location_name s = s := by
        unfold extract_location_name
        rw [if_neg hl, hstrip]
      rw [hres]
      exact hres
    · have hres : extract_location_name s = r.reverse := by
        unfold extract_location_name
        rw [if_neg hl, hstrip]
      obtain ⟨us, ds, w, he, hus, hds, hw⟩ := pyStripSuffix_some hstrip
      have hcount : s.countP isPyWs = (us ++ (ds ++ w :: r)).countP isPyWs := by
        have hp : List.Perm s.reverse s := List.reverse_perm s
        rw [← hp.countP_eq isPyWs, he]
      have hr : r.countP isPyWs = 0 := by
        rw [List.countP_append, List.countP_append, List.countP_cons] at hcount
        simp only [hw, if_true] at hcount
        omega
      have hrrev : r.reverse.countP isPyWs = 0 := by
        rw [(List.reverse_perm r).countP_eq isPyWs]
        exact hr
      rw [hres]
      exact extract_of_no_ws hrrev

/-- C3 witness: idempotence instance on a one-whitespace input. -/
theorem c3_witness :
    extract_location_name (extract_location_name ("Westminster 001A".data)) =
      extract_location_name ("Westminster 001A".data) :=
  c3_amended_idempotent_le_one_ws ("Westminster 001A".data) (by decide)

/-! ## String order

Python compares strings lexicographically by code point; `sorted` and the
pandas `groupby` key order both use that order.  `charListLe` is a
structural Boolean comparator (kernel-reducible, unlike the well-founded
`String.ltb` of the core library). -/

def charListLe : List Char → List Char → Bool
  | [], _ => true
  | _ :: _, [] => false
  | a :: as, b :: bs =>
    if a.toNat < b.toNat then true
    else if b.toNat < a.toNat then false
    else charListLe as bs

def strLe (a b : String) : Bool := charListLe a.data b.data

theorem charListLe_refl : ∀ l : List Char, charListLe l l = true := by
  intro l
  induction l with
  | nil => rfl
  | cons x xs ih => simp [charListLe, ih]

theorem charListLe_cons_iff (x y : Char) (xs ys : List Char) :
    charListLe (x :: xs) (y :: ys) = true ↔
      x.toNat < y.toNat ∨ (x.toNat = y.toNat ∧ charListLe xs ys = true) := by
  simp only [charListLe]
  by_cases h1 : x.toNat < y.toNat
  · simp [h1]
  · by_cases h2 : y.toNat < x.toNat
    · have hne : ¬ x.toNat = y.toNat := by omega
      simp [h1, h2, hne]
    · have heq : x.toNat = y.toNat := by omega
      simp [h1, h2, heq]

theorem charListLe_total : ∀ a b : List Char, charListLe a b = true ∨ charListLe b a = true := by
  intro a
  induction a with
  | nil => intro b; left; rfl
  | cons x xs ih =>
    intro b
    cases b with
    | nil => right; rfl
    | cons y ys =>
      rw [charListLe_cons_iff, charListLe_cons_iff]
      rcases Nat.lt_trichotomy x.toNat y.toNat with h | h | h
      · exact Or.inl (Or.inl h)
      · rcases ih ys with hy | hy
        · exact Or.inl (Or.inr ⟨h, hy⟩)
        · exact Or.inr (Or.inr ⟨h.symm, hy⟩)
      · exact Or.inr (Or.inl h)

theorem charListLe_trans : ∀ a b c : List Char,
    charListLe a b = true → charListLe b c = true → charListLe a c = true := by
  intro a
  induction a with
  | nil => intro b c _ _; rfl
  | cons x xs ih =>
    intro b c h1 h2
    cases b with
    | nil => simp [charListLe] at h1
    | cons y ys =>
      cases c with
      | nil => simp [charListLe] at h2
      | cons z zs =>
        rw [charListLe_cons_iff] at h1 h2 ⊢
        rcases h1 with h1 | ⟨e1, h1⟩ <;> rcases h2 with h2 | ⟨e2, h2⟩
        · exact Or.inl (by omega)
        · exact Or.inl (by omega)
        · exact Or.inl (by omega)
        · exact Or.inr ⟨by omega, ih ys zs h1 h2⟩

theorem strLe_refl (a : String) : strLe a a = true := charListLe_refl a.data

theorem strLe_total (a b : String) : strLe a b = true ∨ strLe b a = true :=
  charListLe_total a.data b.data

theorem strLe_trans {a b c : String} (h1 : strLe a b = true) (h2 : strLe b c = true) :
    strLe a c = true := charListLe_trans a.data b.data c.data h1 h2

/-- Sorting a list of strings under code-point order, as Python `sorted`
and the pandas `groupby` key order do. -/
def sortStrings (l : List String) : List String :=
  List.insertionSort (fun a b => strLe a b = true) l

theorem sortStrings_sorted (l : List String) :
    List.Sorted (fun a b => strLe a b = true) (sortStrings l) := by
  haveI : IsTotal String (fun a b => strLe a b = true) := ⟨strLe_total⟩
  haveI : IsTrans String (fun a b => strLe a b = true) := ⟨fun _ _ _ => strLe_trans⟩
  exact List.sorted_insertionSort _ l

theorem sortStrings_perm (l : List String) : List.Perm (sortStrings l) l :=
  List.perm_insertionSort _ l

theorem sorted_headI_le {l : List String} (hs : List.Sorted (fun a b => strLe a b = true) l)
    {b : String} (hb : b ∈ l) : strLe l.headI b = true := by
  cases l with
  | nil => cases hb
  | cons a t =>
    rcases List.mem_cons.mp hb with rfl | hbt
    · exact strLe_refl b
    · exact List.rel_of_sorted_cons hs b hbt

/-- The location normalizer on `String`, as applied to the "LSOA name"
column to build the "Common Location" column. -/
def extractLoc (s : String) : String := ⟨extract_location_name s.data⟩

/-! ## Data model

One row of the merged CSV.  "Crime ID" is blank for some incident
categories, which pandas loads as NaN; `count` aggregation then skips those
rows, so the field is an `Option`.  Coordinates and population density are
nullable floats, modelled as `Option ℚ`. -/

structure CrimeRecord where
  crimeId : Option String
  month : String
  crimeType : String
  lsoaName : String
  latitude : Option ℚ
  longitude : Option ℚ
  populationDensity : Option ℚ
deriving DecidableEq

/-! ## Pandas float results

A pandas float column entry is NaN, plus or minus infinity, or a numeric
value; `PFloat` models these, ignoring IEEE rounding.  `pfDiv` and `pfMul`
follow IEEE semantics: division of a positive number by zero gives
infinity, zero by zero gives NaN, NaN propagates. -/

inductive PFloat where
  | nan
  | inf
  | ninf
  | num (q : ℚ)
deriving DecidableEq

def pfDiv : PFloat → PFloat → PFloat
  | .nan, _ => .nan
  | _, .nan => .nan
  | .inf, .inf => .nan
  | .inf, .ninf => .nan
  | .ninf, .inf => .nan
  | .ninf, .ninf => .nan
  | .inf, .num b => if b < 0 then .ninf else .inf
  | .ninf, .num b => if b < 0 then .inf else .ninf
  | .num _, .inf => .num 0
  | .num _, .ninf => .num 0
  | .num a, .num b =>
    if b = 0 then (if a = 0 then .nan else if 0 < a then .inf else .ninf)
    else .num (a / b)

def pfMul : PFloat → PFloat → PFloat
  | .nan, _ => .nan
  | _, .nan => .nan
  | .inf, .inf => .inf
  | .inf, .ninf => .ninf
  | .ninf, .inf => .ninf
  | .ninf, .ninf => .inf
  | .inf, .num b => if b = 0 then .nan else if 0 < b then .inf else .ninf
  | .num a, .inf => if a = 0 then .nan else if 0 < a then .inf else .ninf
  | .ninf, .num b => if b = 0 then .nan else if 0 < b then .ninf else .inf
  | .num a, .ninf => if a = 0 then .nan else if 0 < a then .ninf else .inf
  | .num a, .num b => .num (a * b)

/-- Mean of a float column over a group, skipping nulls (pandas `mean`
with default `skipna`): NaN when no value is present. -/
def meanOpt (qs : List ℚ) : PFloat :=
  if qs.isEmpty then .nan else .num (qs.sum / (qs.length : ℚ))

/-! ## Sort keys for `sort_values`

`sort_values(by, ascending)` orders a float column with NaN always placed
last (default `na_position="last"`), infinities comparing as extreme
values.  Each `PFloat` is mapped to a pair ordered lexicographically:
the first component separates minus infinity / numbers / plus infinity /
NaN (NaN greatest in both directions), the second orders numbers, negated
for a descending sort. -/

def keyPairLe (x y : ℕ × ℚ) : Prop := x.1 < y.1 ∨ (x.1 = y.1 ∧ x.2 ≤ y.2)

instance : DecidableRel keyPairLe := fun x y =>
  inferInstanceAs (Decidable (x.1 < y.1 ∨ (x.1 = y.1 ∧ x.2 ≤ y.2)))

theorem keyPairLe_total (x y : ℕ × ℚ) : keyPairLe x y ∨ keyPairLe y x := by
  unfold keyPairLe
  rcases Nat.lt_trichotomy x.1 y.1 with h | h | h
  · exact Or.inl (Or.inl h)
  · rcases le_total x.2 y.2 with h2 | h2
    · exact Or.inl (Or.inr ⟨h, h2⟩)
    · exact Or.inr (Or.inr ⟨h.symm, h2⟩)
  · exact Or.inr (Or.inl h)

theorem keyPairLe_trans (x y z : ℕ × ℚ) (h1 : keyPairLe x y) (h2 : keyPairLe y z) :
    keyPairLe x z := by
  unfold keyPairLe at *
  rcases h1 with h1 | ⟨e1, l1⟩ <;> rcases h2 with h2 | ⟨e2, l2⟩
  · exact Or.inl (by omega)
  · exact Or.inl (by omega)
  · exact Or.inl (by omega)
  · exact Or.inr ⟨by omega, le_trans l1 l2⟩

def pfKeyAsc : PFloat → ℕ × ℚ
  | .ninf => (0, 0)
  | .num q => (1, q)
  | .inf => (2, 0)
  | .nan => (3, 0)

def pfKeyDesc : PFloat → ℕ × ℚ
  | .inf => (0, 0)
  | .num q => (1, -q)
  | .ninf => (2, 0)
  | .nan => (3, 0)

def pfKey : Bool → PFloat → ℕ × ℚ
  | true, p => pfKeyAsc p
  | false, p => pfKeyDesc p

/-- Sort order used by `sort_values` on a float column: `asc = true` for
`ascending=True`.  NaN is last in both directions. -/
def pfSortLe (asc : Bool) (a b : PFloat) : Prop := keyPairLe (pfKey asc a) (pfKey asc b)

instance (asc : Bool) : DecidableRel (pfSortLe asc) := fun a b =>
  inferInstanceAs (Decidable (keyPairLe (pfKey asc a) (pfKey asc b)))

theorem pfSortLe_nan_forces {asc : Bool} {b : PFloat} (h : pfSortLe asc .nan b) :
    b = .nan := by
  cases asc <;> cases b <;> simp_all [pfSortLe, pfKey, pfKeyAsc, pfKeyDesc, keyPairLe]

theorem pfSortLe_num_mono {asc : Bool} {a b : ℚ} (h : pfSortLe asc (.num a) (.num b)) :
    (asc = true → a ≤ b) ∧ (asc = false → b ≤ a) := by
  cases asc
  · have h2 : b ≤ a := by simpa [pfSortLe, pfKey, pfKeyDesc, keyPairLe] using h
    exact ⟨fun hc => absurd hc (by decide), fun _ => h2⟩
  · have h2 : a ≤ b := by simpa [pfSortLe, pfKey, pfKeyAsc, keyPairLe] using h
    exact ⟨fun _ => h2, fun hc => absurd hc (by decide)⟩

/-! ## Aggregation and ranking (the bar-chart callback)

`aggregateBy` models

    df.groupby(key).agg({"Crime ID": "count",
                         "Population Density (people per km^2)": "mean"})

followed by the unconditional rate column

    grouped["Crime Rate"] = grouped["Total Crimes"] / grouped["Density"] * 1000

pandas `groupby` sorts the group keys; `count` counts non-null "Crime ID"
entries; `mean` skips nulls and is NaN on an all-null group. -/

structure AggRow where
  groupKey : String
  totalCrimes : ℕ
  meanDensity : PFloat
  crimeRate : PFloat
deriving DecidableEq

def aggregateBy (key : CrimeRecord → String) (df : List CrimeRecord) : List AggRow :=
  (sortStrings ((df.map key).dedup)).map (fun k =>
    let rows := df.filter (fun r => key r == k)
    let total := rows.countP (fun r => r.crimeId.isSome)
    let md := meanOpt (rows.filterMap CrimeRecord.populationDensity)
    ⟨k, total, md, pfMul (pfDiv (.num (total : ℚ)) md) (.num 1000)⟩)

/-- The metric column picked by the metric toggle: "total" picks the raw
count, anything else picks the normalised crime rate. -/
def barMetric (metricName : String) (row : AggRow) : PFloat :=
  if metricName == "total" then .num (row.totalCrimes : ℚ) else row.crimeRate

/-- `grouped.sort_values(by=y_col, ascending=(rank_choice == "bottom")).head(10)`. -/
def rank_select (rows : List AggRow) (metricName rankChoice : String) : List AggRow :=
  (List.insertionSort
    (fun a b => pfSortLe (rankChoice == "bottom") (barMetric metricName a) (barMetric metricName b))
    rows).take 10

/-- The request values of the bar-chart callback. -/
structure BarInputs where
  selectedMonth : String
  selectedMetric : String
  selectedCrimes : List String
  rankChoice : String
  combineToggle : List String
deriving DecidableEq

/-- The bar-chart callback `update_bar_chart`, modelled up to the ranked
row list handed to the plotting call: filter by month unless "all", filter
by crime type unless "All Crimes" is selected, group by "Common Location"
(recomputed by `extractLoc`) when combining or by "LSOA name" otherwise,
aggregate, and rank. -/
def update_bar_chart (df0 : List CrimeRecord) (i : BarInputs) : List AggRow :=
  let df1 := if i.selectedMonth == "all" then df0
             else df0.filter (fun r => r.month == i.selectedMonth)
  let df2 := if i.selectedCrimes.contains "All Crimes" then df1
             else df1.filter (fun r => i.selectedCrimes.contains r.crimeType)
  let key : CrimeRecord → String :=
    if i.combineToggle.contains "combine" then (fun r => extractLoc r.lsoaName)
    else (fun r => r.lsoaName)
  rank_select (aggregateBy key df2) i.selectedMetric i.rankChoice

/-! ## The time-series callback

`update_time_series` recomputes the "Common Location" column, picks the
location dimension from the combine toggle, rebuilds the location option
list, repairs an empty or invalid location selection to the first value of
the sorted value set, filters, groups by (month, location[, crime type])
with `size` counts, and chooses the color/series dimension from the number
of selected crime types.  The figure is modelled by the grouped rows plus
the two dimension names handed to the plotting call. -/

def pairLeB (a b : String × String) : Bool :=
  if a.1 = b.1 then strLe a.2 b.2 else strLe a.1 b.1

def tripLeB (a b : String × String × String) : Bool :=
  if a.1 = b.1 then pairLeB a.2 b.2 else strLe a.1 b.1

def tsLocOf (combine : Bool) (r : CrimeRecord) : String :=
  if combine then extractLoc r.lsoaName else r.lsoaName

def tsLocList (combine : Bool) (df : List CrimeRecord) : List String :=
  sortStrings ((df.map (tsLocOf combine)).dedup)

structure TSOut where
  grouped : List (String × String × String × ℕ)
  locationOptions : List String
  selectedLocations : List String
  colorArg : String
  lineGroupArg : String
deriving DecidableEq

def updateTimeSeries (df : List CrimeRecord)
    (combineToggle selectedLocations selectedCrimes : List String) : TSOut :=
  let combine := combineToggle.contains "combine"
  let locList := tsLocList combine df
  let locColName := if combine then "Common Location" else "LSOA name"
  let sel := if selectedLocations.isEmpty ||
                selectedLocations.any (fun l => !(locList.contains l))
             then [locList.headI] else selectedLocations
  let dfF := df.filter (fun r => sel.contains (tsLocOf combine r))
  let grouped :=
    if selectedCrimes.isEmpty || selectedCrimes.contains "All Crimes" then
      (List.insertionSort (fun a b => pairLeB a b = true)
          ((dfF.map (fun r => (r.month, tsLocOf combine r))).dedup)).map
        (fun k => (k.1, k.2, "All Crimes",
          (dfF.filter (fun r => r.month == k.1 && tsLocOf combine r == k.2)).length))
    else
      let dfC := dfF.filter (fun r => selectedCrimes.contains r.crimeType)
      (List.insertionSort (fun a b => tripLeB a b = true)
          ((dfC.map (fun r => (r.month, tsLocOf combine r, r.crimeType))).dedup)).map
        (fun k => (k.1, k.2.1, k.2.2,
          (dfC.filter (fun r =>
            r.month == k.1 && tsLocOf combine r == k.2.1 && r.crimeType == k.2.2)).length))
  let multi := !(selectedCrimes.isEmpty || (selectedCrimes.length == 1) ||
                 selectedCrimes.contains "All Crimes")
  ⟨grouped, locList, sel,
   if multi then "Crime type" else locColName,
   if multi then locColName else "Crime type"⟩

/-! ## The centroid index and the map callback

`location_coords` is built once from the full dataset by

    merged_df.groupby("Common Location")[["Latitude", "Longitude"]]
      .mean().dropna()

pandas computes the two column means independently, each skipping nulls,
and `dropna` removes a location when either mean is NaN, that is, when the
location has no non-null latitude or no non-null longitude.  `coords_dict`
lookups are modelled by `centroidIndex`. -/

def centroidIndex (df : List CrimeRecord) (loc : String) : Option (ℚ × ℚ) :=
  let grp := df.filter (fun r => extractLoc r.lsoaName == loc)
  let lats := grp.filterMap CrimeRecord.latitude
  let lons := grp.filterMap CrimeRecord.longitude
  if lats.isEmpty || lons.isEmpty then none
  else some (lats.sum / (lats.length : ℚ), lons.sum / (lons.length : ℚ))

/-- Modelled from the claim text of C6, not from the source: the claim
says the centroid is the mean of latitude and of longitude over the
records of the location, "ignoring records where either coordinate is
null", with the location absent when no record contributes.  This
definition follows those words so that it can be compared with
`centroidIndex`. -/
def centroidIndexSpec (df : List CrimeRecord) (loc : String) : Option (ℚ × ℚ) :=
  let pts := (df.filter (fun r => extractLoc r.lsoaName == loc)).filterMap
    (fun r => match r.latitude, r.longitude with
      | some la, some lo => some (la, lo)
      | _, _ => none)
  if pts.isEmpty then none
  else some ((pts.map Prod.fst).sum / (pts.length : ℚ),
             (pts.map Prod.snd).sum / (pts.length : ℚ))

def color_palette : List String :=
  ["red", "blue", "green", "purple", "orange", "darkred", "lightred", "beige",
   "darkblue", "darkgreen", "cadetblue", "darkpurple", "pink", "lightblue",
   "lightgreen", "gray", "black", "lightgray"]

/-- The map callback `update_map`, modelled up to the list of markers: one
`(location, centroid, color)` tuple per selected location present in the
centroid index, in selection order, colors cycling through the palette by
selection position. -/
def update_map (df : List CrimeRecord) (selectedLocations : List String) :
    List (String × (ℚ × ℚ) × String) :=
  selectedLocations.enum.filterMap (fun p =>
    match centroidIndex df p.2 with
    | some c => some (p.2, c, color_palette.getD (p.1 % color_palette.length) "red")
    | none => none)

/-! ## Request-scoped state

Each callback starts from `merged_df.copy()` and only ever assigns columns
of that request-local copy (`df["Common Location"] = ...`); the
module-level frame is never assigned.  The wrappers thread the module
store explicitly: a callback maps the store to the pair of the store it
leaves behind and its output. -/

def update_bar_chart_state (store : List CrimeRecord) (i : BarInputs) :
    List CrimeRecord × List AggRow :=
  (store, update_bar_chart store i)

def update_time_series_state (store : List CrimeRecord)
    (combineToggle selectedLocations selectedCrimes : List String) :
    List CrimeRecord × TSOut :=
  (store, updateTimeSeries store combineToggle selectedLocations selectedCrimes)

/-! ## Claim C9: group counts partition the filtered set -/

theorem sum_map_ite_eq {c : ℕ} (a : String) :
    ∀ keys : List String, keys.Nodup → a ∈ keys →
      (keys.map (fun k => if a = k then c else 0)).sum = c := by
  intro keys
  induction keys with
  | nil => intro _ h; cases h
  | cons k t ih =>
    intro hnd hmem
    have hk : k ∉ t := (List.nodup_cons.mp hnd).1
    have ht : t.Nodup := (List.nodup_cons.mp hnd).2
    rcases List.mem_cons.mp hmem with rfl | hat
    · have hz : (t.map (fun x => if a = x then c else 0)).sum = 0 := by
        apply List.sum_eq_zero
        intro x hx
        obtain ⟨y, hy, rfl⟩ := List.mem_map.mp hx
        have hne : ¬ a = y := fun he => hk (he ▸ hy)
        simp [hne]
      simp [hz]
    · have hne : ¬ a = k := fun he => hk (he ▸ hat)
      simp [hne, ih ht hat]

theorem sum_map_add_nat (f g : String → ℕ) (l : List String) :
    (l.map (fun x => f x + g x)).sum = (l.map f).sum + (l.map g).sum := by
  induction l with
  | nil => rfl
  | cons a t ih =>
    simp only [List.map_cons, List.sum_cons, ih]
    omega

/-- Summing a per-group count over a duplicate-free, complete key list
gives the count over the whole list: the groups partition the records. -/
theorem countP_partition (p : CrimeRecord → Bool) (key : CrimeRecord → String) :
    ∀ (df : List CrimeRecord) (keys : List String), keys.Nodup →
      (∀ r ∈ df, key r ∈ keys) →
      (keys.map (fun k => (df.filter (fun r => key r == k)).countP p)).sum = df.countP p := by
  intro df
  induction df with
  | nil =>
    intro keys _ _
    rw [List.countP_nil]
    apply List.sum_eq_zero
    intro x hx
    obtain ⟨k, _, rfl⟩ := List.mem_map.mp hx
    simp
  | cons r t ih =>
    intro keys hnd hmem
    have hmt : ∀ x ∈ t, key x ∈ keys := fun x hx => hmem x (List.mem_cons_of_mem r hx)
    have hkr : key r ∈ keys := hmem r (List.mem_cons_self r t)
    have hstep : ∀ k, ((r :: t).filter (fun x => key x == k)).countP p =
        (t.filter (fun x => key x == k)).countP p +
          (if key r = k then (if p r then 1 else 0) else 0) := by
      intro k
      by_cases hk : key r = k
      · rw [List.filter_cons]
        have hb : (key r == k) = true := by simp [hk]
        rw [hb]
        simp [List.countP_cons, hk]
      · rw [List.filter_cons]
        have hb : (key r == k) = false := by simp [hk]
        rw [hb]
        simp [hk]
    have hfe : (fun k => ((r :: t).filter (fun x => key x == k)).countP p) =
        (fun k => (t.filter (fun x => key x == k)).countP p +
          (if key r = k then (if p r then 1 else 0) else 0)) := funext hstep
    rw [hfe, sum_map_add_nat, ih keys hnd hmt, sum_map_ite_eq (key r) keys hnd hkr,
      List.countP_cons]

theorem aggregateBy_total_sum (key : CrimeRecord → String) (df : List CrimeRecord) :
    ((aggregateBy key df).map AggRow.totalCrimes).sum =
      df.countP (fun r => r.crimeId.isSome) := by
  unfold aggregateBy
  rw [List.map_map]
  have hnd : (sortStrings ((df.map key).dedup)).Nodup :=
    (sortStrings_perm ((df.map key).dedup)).symm.nodup (List.nodup_dedup _)
  have hmem : ∀ r ∈ df, key r ∈ sortStrings ((df.map key).dedup) := by
    intro r hr
    have h1 : key r ∈ df.map key := List.mem_map_of_mem key hr
    have h2 : key r ∈ (df.map key).dedup := List.mem_dedup.mpr h1
    exact ((sortStrings_perm _).mem_iff).mpr h2
  exact countP_partition (fun r => r.crimeId.isSome) key df _ hnd hmem

/-- C9: for every filtered record set, the sum of `totalCount` over the
common-location groups equals the sum over the fine-grained-area groups;
both partitions count exactly the records with a non-null "Crime ID". -/
theorem c9_total_count_partition (df : List CrimeRecord) :
    ((aggregateBy (fun r => extractLoc r.lsoaName) df).map AggRow.totalCrimes).sum =
    ((aggregateBy (fun r => r.lsoaName) df).map AggRow.totalCrimes).sum := by
  rw [aggregateBy_total_sum, aggregateBy_total_sum]

/-! ## Claim C10: no request mutates the loaded snapshot -/

/-- C10: the bar-chart and time-series callbacks leave the module-level
dataset store unchanged: each works on `merged_df.copy()` and only assigns
columns of that request-local copy, so the state they return is the state
they received, every record and every field intact. -/
theorem c10_no_mutation (store : List CrimeRecord) (i : BarInputs)
    (ct sel crimes : List String) :
    (update_bar_chart_state store i).1 = store ∧
    (update_time_series_state store ct sel crimes).1 = store :=
  ⟨rfl, rfl⟩

/-! ## Claim C4: empty crime-type selection -/

/-- A concrete single-record dataset used in counterexamples. -/
def rec4 : CrimeRecord := ⟨some "id1", "2025-01", "Burglary", "A 001A", none, none, none⟩

/-- C4 counterexample: in the bar-chart pipeline an empty crime-type
selection is NOT treated as "all crime types": `"All Crimes" not in []`
holds, so the pipeline filters with `isin([])`, which removes every
record and yields an empty result, while the "All Crimes" sentinel keeps
the record. -/
theorem c4_counterexample :
    update_bar_chart [rec4] ⟨"all", "total", [], "top", []⟩ = [] ∧
    ¬ update_bar_chart [rec4] ⟨"all", "total", ["All Crimes"], "top", []⟩ = [] := by
  refine ⟨by decide, by decide⟩

/-- C4 (amended): the time-series pipeline treats an empty crime-type
selection exactly like the "All Crimes" sentinel (same grouped rows, same
options, same repaired selection, same series dimensions), but the
bar-chart pipeline does not: there an empty selection filters out every
record and produces an empty ranked result for every dataset and every
month and toggle choice. -/
theorem c4_amended_empty_selection :
    (∀ (df : List CrimeRecord) (ct locs : List String),
      updateTimeSeries df ct locs [] = updateTimeSeries df ct locs ["All Crimes"]) ∧
    (∀ (df : List CrimeRecord) (m metric rank : String) (comb : List String),
      update_bar_chart df ⟨m, metric, [], rank, comb⟩ = []) := by
  constructor
  · intro df ct locs
    rfl
  · intro df m metric rank comb
    show rank_select
      (aggregateBy
        (if comb.contains "combine" then (fun r => extractLoc r.lsoaName)
         else (fun r => r.lsoaName))
        ((if m == "all" then df else df.filter (fun r => r.month == m)).filter
          (fun r => ([] : List String).contains r.crimeType)))
      metric rank = []
    rw [show (fun (r : CrimeRecord) => (([] : List String).contains r.crimeType)) =
      (fun _ => false) from rfl]
    rw [List.filter_false]
    rfl

/-! ## Claim C5: ranking -/

/-- C5 (amended): for every aggregated row set, metric and direction, the
ranked output has length `min 10 (number of groups)` (never padding or
failing), is sorted by the `sort_values` order of the chosen metric
(ascending for "bottom", descending for "top", numeric values monotone
accordingly), and every row whose metric is the NaN sentinel (rate from an
absent density) is placed after every other row.  The original claim fails
for rows whose density is zero: their rate is positive infinity, which is a
defined value for the sort and leads a descending ranking (see the
counterexample). -/
theorem c5_amended_rank_select (rows : List AggRow) (metricName rankChoice : String) :
    (rank_select rows metricName rankChoice).length = min 10 rows.length ∧
    List.Sorted (fun a b => pfSortLe (rankChoice == "bottom")
        (barMetric metricName a) (barMetric metricName b))
      (rank_select rows metricName rankChoice) ∧
    (∀ (i j : ℕ) (a b : AggRow), i < j →
      (rank_select rows metricName rankChoice).get? i = some a →
      (rank_select rows metricName rankChoice).get? j = some b →
      barMetric metricName a = PFloat.nan → barMetric metricName b = PFloat.nan) ∧
    (∀ (i j : ℕ) (a b : AggRow) (qa qb : ℚ), i < j →
      (rank_select rows metricName rankChoice).get? i = some a →
      (rank_select rows metricName rankChoice).get? j = some b →
      barMetric metricName a = PFloat.num qa → barMetric metricName b = PFloat.num qb →
      ((rankChoice == "bottom") = true → qa ≤ qb) ∧
      ((rankChoice == "bottom") = false → qb ≤ qa)) := by
  haveI ht : IsTotal AggRow (fun a b => pfSortLe (rankChoice == "bottom")
      (barMetric metricName a) (barMetric metricName b)) :=
    ⟨fun a b => keyPairLe_total _ _⟩
  haveI htr : IsTrans AggRow (fun a b => pfSortLe (rankChoice == "bottom")
      (barMetric metricName a) (barMetric metricName b)) :=
    ⟨fun a b c h1 h2 => keyPairLe_trans _ _ _ h1 h2⟩
  have hperm := List.perm_insertionSort (fun a b => pfSortLe (rankChoice == "bottom")
      (barMetric metricName a) (barMetric metricName b)) rows
  have hsorted := List.sorted_insertionSort (fun a b => pfSortLe (rankChoice == "bottom")
      (barMetric metricName a) (barMetric metricName b)) rows
  have hsorted10 : List.Sorted (fun a b => pfSortLe (rankChoice == "bottom")
      (barMetric metricName a) (barMetric metricName b))
      (rank_select rows metricName rankChoice) :=
    hsorted.sublist (List.take_sublist 10 _)
  refine ⟨?_, hsorted10, ?_, ?_⟩
  · show ((List.insertionSort _ rows).take 10).length = min 10 rows.length
    rw [List.length_take, hperm.length_eq]
  · intro i j a b hij hi hj hna
    obtain ⟨hi', rfl⟩ := List.get?_eq_some.mp hi
    obtain ⟨hj', rfl⟩ := List.get?_eq_some.mp hj
    have hr := List.pairwise_iff_get.mp hsorted10 ⟨i, hi'⟩ ⟨j, hj'⟩ hij
    rw [hna] at hr
    exact pfSortLe_nan_forces hr
  · intro i j a b qa qb hij hi hj hqa hqb
    obtain ⟨hi', rfl⟩ := List.get?_eq_some.mp hi
    obtain ⟨hj', rfl⟩ := List.get?_eq_some.mp hj
    have hr := List.pairwise_iff_get.mp hsorted10 ⟨i, hi'⟩ ⟨j, hj'⟩ hij
    rw [hqa, hqb] at hr
    exact pfSortLe_num_mono hr

/-! ## Concrete dataset with a zero-density area (claims C1 and C5) -/

def recZ : CrimeRecord := ⟨some "id2", "2025-01", "Burglary", "Z 001A", none, none, some 0⟩

def recA : CrimeRecord := ⟨some "id3", "2025-01", "Theft", "A 001A", none, none, some 1⟩

def dfZero : List CrimeRecord := [recZ, recA]

def barInpRate : BarInputs := ⟨"all", "normalised", ["All Crimes"], "top", []⟩

theorem agg_dfZero_eval : aggregateBy (fun r => r.lsoaName) dfZero =
    [⟨"A 001A", 1, PFloat.num 1, PFloat.num 1000⟩,
     ⟨"Z 001A", 1, PFloat.num 0, PFloat.inf⟩] := by
  have hkeys : sortStrings ((dfZero.map (fun r => r.lsoaName)).dedup) =
      ["A 001A", "Z 001A"] := by decide
  have hfA : dfZero.filter (fun r => r.lsoaName == "A 001A") = [recA] := by decide
  have hfZ : dfZero.filter (fun r => r.lsoaName == "Z 001A") = [recZ] := by decide
  have hdA : [recA].filterMap CrimeRecord.populationDensity = [(1:ℚ)] := by decide
  have hdZ : [recZ].filterMap CrimeRecord.populationDensity = [(0:ℚ)] := by decide
  have hcA : [recA].countP (fun r => r.crimeId.isSome) = 1 := by decide
  have hcZ : [recZ].countP (fun r => r.crimeId.isSome) = 1 := by decide
  have hmA : meanOpt [(1:ℚ)] = PFloat.num 1 := by norm_num [meanOpt]
  have hmZ : meanOpt [(0:ℚ)] = PFloat.num 0 := by norm_num [meanOpt]
  have hrA : pfMul (pfDiv (PFloat.num ((1:ℕ):ℚ)) (PFloat.num 1)) (PFloat.num 1000) =
      PFloat.num 1000 := by norm_num [pfDiv, pfMul]
  have hrZ : pfMul (pfDiv (PFloat.num ((1:ℕ):ℚ)) (PFloat.num 0)) (PFloat.num 1000) =
      PFloat.inf := by norm_num [pfDiv, pfMul]
  unfold aggregateBy
  rw [hkeys]
  simp only [List.map_cons, List.map_nil, hfA, hfZ, hdA, hdZ, hcA, hcZ, hmA, hmZ, hrA, hrZ]

theorem bar_dfZero_eval : update_bar_chart dfZero barInpRate =
    [⟨"Z 001A", 1, PFloat.num 0, PFloat.inf⟩,
     ⟨"A 001A", 1, PFloat.num 1, PFloat.num 1000⟩] := by
  show rank_select (aggregateBy (fun r => r.lsoaName) dfZero) "normalised" "top" = _
  rw [agg_dfZero_eval]
  decide

/-- C1: evidence that the code contradicts the claim.  In the "Z 001A"
group the mean density is 0 and the count is 1; the pipeline computes
`1 / 0 * 1000`, which pandas evaluates to positive infinity, not an
explicit "undefined" sentinel, and a descending ranking by rate places
this row FIRST, not excluded from comparisons nor after the defined rows.
(The absent-density half of the claim does hold: an all-null density group
gets a NaN rate, which `sort_values` places last, see C5.) -/
theorem c1_zero_density_rate_is_infinite :
    (update_bar_chart dfZero barInpRate).map AggRow.crimeRate =
      [PFloat.inf, PFloat.num 1000] ∧
    (update_bar_chart dfZero barInpRate).map AggRow.meanDensity =
      [PFloat.num 0, PFloat.num 1] := by
  rw [bar_dfZero_eval]
  exact ⟨rfl, rfl⟩

/-- C5 counterexample: ranking by rate in direction "top" places the
zero-density group (whose rate is, per the claim, "undefined") before the
defined-rate group, because its rate is computed as positive infinity:
the first ranked row is the zero-density one. -/
theorem c5_counterexample :
    (update_bar_chart dfZero barInpRate).map
        (fun row => (row.groupKey, row.meanDensity)) =
      [("Z 001A", PFloat.num 0), ("A 001A", PFloat.num 1)] := by
  rw [bar_dfZero_eval]
  rfl

/-- Two aggregated rows whose rate is the NaN sentinel, used to witness the
NaN-trailing clause of the amended C5. -/
def rowsNan : List AggRow :=
  [⟨"a", 1, PFloat.nan, PFloat.nan⟩, ⟨"b", 2, PFloat.nan, PFloat.nan⟩]

/-- C5 witness: the amended ranking contract applied to a concrete row
set, discharging its hypotheses at indices 0 and 1. -/
theorem c5_witness :
    (rank_select rowsNan "normalised" "top").length = min 10 rowsNan.length ∧
    barMetric "normalised" ⟨"b", 2, PFloat.nan, PFloat.nan⟩ = PFloat.nan := by
  constructor
  · exact (c5_amended_rank_select rowsNan "normalised" "top").1
  · exact (c5_amended_rank_select rowsNan "normalised" "top").2.2.1 0 1
      ⟨"a", 1, PFloat.nan, PFloat.nan⟩ ⟨"b", 2, PFloat.nan, PFloat.nan⟩
      (by decide) (by decide) (by decide) (by decide)

/-! ## Claim C6: the centroid index -/

theorem filterMap_isEmpty_eq_all_none {f : CrimeRecord → Option ℚ} {l : List CrimeRecord} :
    (l.filterMap f).isEmpty = l.all (fun r => (f r).isNone) := by
  induction l with
  | nil => rfl
  | cons a t ih =>
    rw [List.filterMap_cons]
    cases hfa : f a with
    | none => simp [List.all_cons, hfa, ih]
    | some v => simp [List.all_cons, hfa]

/-- Records of a common location with only a latitude in one record and
only a longitude in the other: the claim says such a location has no
centroid (no record has both coordinates), the code still produces one
from the two partial records. -/
def rec6a : CrimeRecord := ⟨some "c1", "2025-01", "Burglary", "C 001A", some 1, none, none⟩

def rec6b : CrimeRecord := ⟨some "c2", "2025-01", "Burglary", "C 002B", none, some 2, none⟩

def df6 : List CrimeRecord := [rec6a, rec6b]

theorem centroid_df6_eval : centroidIndex df6 "C" = some (1, 2) := by
  have hf : df6.filter (fun r => extractLoc r.lsoaName == "C") = df6 := by decide
  have hla : df6.filterMap CrimeRecord.latitude = [(1:ℚ)] := by decide
  have hlo : df6.filterMap CrimeRecord.longitude = [(2:ℚ)] := by decide
  unfold centroidIndex
  simp only [hf, hla, hlo]
  norm_num

/-- C6 counterexample: the code averages latitude and longitude
independently, each skipping nulls, instead of "ignoring records where
either coordinate is null".  For the location "C" above, no record has
both coordinates, so under the claim the location is absent from the
index, yet the code maps it to the mixed centroid (1, 2) built from two
different records. -/
theorem c6_counterexample :
    centroidIndex df6 "C" = some (1, 2) ∧
    centroidIndexSpec df6 "C" = none := by
  exact ⟨centroid_df6_eval, by decide⟩

/-- C6 (amended): the centroid index maps each common location to the pair
of the mean of its non-null latitudes and the mean of its non-null
longitudes, computed independently per coordinate; a location is absent
exactly when all its latitudes are null or all its longitudes are null
(in particular when every record has both coordinates null); and the map
callback renders no pin for an absent key rather than failing. -/
theorem c6_amended_centroid_index (df : List CrimeRecord) (loc : String) (sel : List String) :
    ((centroidIndex df loc).isNone =
      ((df.filter (fun r => extractLoc r.lsoaName == loc)).all (fun r => r.latitude.isNone) ||
       (df.filter (fun r => extractLoc r.lsoaName == loc)).all (fun r => r.longitude.isNone))) ∧
    (∀ la lo, centroidIndex df loc = some (la, lo) →
      la * ((((df.filter (fun r => extractLoc r.lsoaName == loc)).filterMap
          CrimeRecord.latitude).length : ℕ) : ℚ) =
        ((df.filter (fun r => extractLoc r.lsoaName == loc)).filterMap
          CrimeRecord.latitude).sum ∧
      lo * ((((df.filter (fun r => extractLoc r.lsoaName == loc)).filterMap
          CrimeRecord.longitude).length : ℕ) : ℚ) =
        ((df.filter (fun r => extractLoc r.lsoaName == loc)).filterMap
          CrimeRecord.longitude).sum) ∧
    (centroidIndex df loc = none →
      (update_map df sel).all (fun t => !(t.1 == loc)) = true) := by
  have hdef : centroidIndex df loc =
      (if ((df.filter (fun r => extractLoc r.lsoaName == loc)).filterMap
            CrimeRecord.latitude).isEmpty ||
          ((df.filter (fun r => extractLoc r.lsoaName == loc)).filterMap
            CrimeRecord.longitude).isEmpty
       then none
       else some
        (((df.filter (fun r => extractLoc r.lsoaName == loc)).filterMap
            CrimeRecord.latitude).sum /
          (((df.filter (fun r => extractLoc r.lsoaName == loc)).filterMap
            CrimeRecord.latitude).length : ℚ),
         ((df.filter (fun r => extractLoc r.lsoaName == loc)).filterMap
            CrimeRecord.longitude).sum /
          (((df.filter (fun r => extractLoc r.lsoaName == loc)).filterMap
            CrimeRecord.longitude).length : ℚ))) := rfl
  refine ⟨?_, ?_, ?_⟩
  · rw [hdef, ← filterMap_isEmpty_eq_all_none, ← filterMap_isEmpty_eq_all_none]
    by_cases h : (((df.filter (fun r => extractLoc r.lsoaName == loc)).filterMap
          CrimeRecord.latitude).isEmpty ||
        ((df.filter (fun r => extractLoc r.lsoaName == loc)).filterMap
          CrimeRecord.longitude).isEmpty) = true
    · rw [if_pos h, h]
      rfl
    · rw [if_neg h]
      simp only [Bool.not_eq_true] at h
      rw [h]
      rfl
  · intro la lo hsome
    rw [hdef] at hsome
    by_cases h : (((df.filter (fun r => extractLoc r.lsoaName == loc)).filterMap
          CrimeRecord.latitude).isEmpty ||
        ((df.filter (fun r => extractLoc r.lsoaName == loc)).filterMap
          CrimeRecord.longitude).isEmpty) = true
    · rw [if_pos h] at hsome
      cases hsome
    · rw [if_neg h] at hsome
      simp only [Bool.or_eq_true, not_or, Bool.not_eq_true] at h
      obtain ⟨hla, hlo⟩ := h
      have hlane : ((df.filter (fun r => extractLoc r.lsoaName == loc)).filterMap
          CrimeRecord.latitude) ≠ [] := by
        intro h0
        rw [h0] at hla
        simp at hla
      have hlone : ((df.filter (fun r => extractLoc r.lsoaName == loc)).filterMap
          CrimeRecord.longitude) ≠ [] := by
        intro h0
        rw [h0] at hlo
        simp at hlo
      have hlenla : ((((df.filter (fun r => extractLoc r.lsoaName == loc)).filterMap
          CrimeRecord.latitude).length : ℕ) : ℚ) ≠ 0 := by
        have h1 : ((df.filter (fun r => extractLoc r.lsoaName == loc)).filterMap
            CrimeRecord.latitude).length ≠ 0 :=
          fun hh => hlane (List.length_eq_zero.mp hh)
        exact_mod_cast h1
      have hlenlo : ((((df.filter (fun r => extractLoc r.lsoaName == loc)).filterMap
          CrimeRecord.longitude).length : ℕ) : ℚ) ≠ 0 := by
        have h1 : ((df.filter (fun r => extractLoc r.lsoaName == loc)).filterMap
            CrimeRecord.longitude).length ≠ 0 :=
          fun hh => hlone (List.length_eq_zero.mp hh)
        exact_mod_cast h1
      have hinj := Option.some.inj hsome
      have hla2 : la = ((df.filter (fun r => extractLoc r.lsoaName == loc)).filterMap
          CrimeRecord.latitude).sum /
          ((((df.filter (fun r => extractLoc r.lsoaName == loc)).filterMap
            CrimeRecord.latitude).length : ℕ) : ℚ) :=
        (congrArg Prod.fst hinj).symm
      have hlo2 : lo = ((df.filter (fun r => extractLoc r.lsoaName == loc)).filterMap
          CrimeRecord.longitude).sum /
          ((((df.filter (fun r => extractLoc r.lsoaName == loc)).filterMap
            CrimeRecord.longitude).length : ℕ) : ℚ) :=
        (congrArg Prod.snd hinj).symm
      rw [hla2, hlo2]
      exact ⟨div_mul_cancel₀ _ hlenla, div_mul_cancel₀ _ hlenlo⟩
  · intro hnone
    rw [List.all_eq_true]
    intro t ht
    obtain ⟨p, _, hp⟩ := List.mem_filterMap.mp ht
    rcases hc : centroidIndex df p.2 with _ | c
    · rw [hc] at hp
      cases hp
    · rw [hc] at hp
      have ht1 : t.1 = p.2 := by
        have := Option.some.inj hp
        rw [← this]
      simp only [Bool.not_eq_true', beq_eq_false_iff_ne]
      intro he
      rw [ht1] at he
      rw [he] at hc
      rw [hnone] at hc
      cases hc

/-- C6 witness: the amended centroid contract applied at the concrete
dataset, discharging the some- and none-hypotheses. -/
theorem c6_witness :
    ((1:ℚ) * ((((df6.filter (fun r => extractLoc r.lsoaName == "C")).filterMap
        CrimeRecord.latitude).length : ℕ) : ℚ) =
      ((df6.filter (fun r => extractLoc r.lsoaName == "C")).filterMap
        CrimeRecord.latitude).sum) ∧
    (update_map df6 ["Q"]).all (fun t => !(t.1 == "Q")) = true := by
  constructor
  · exact ((c6_amended_centroid_index df6 "C" []).2.1 1 2 centroid_df6_eval).1
  · exact (c6_amended_centroid_index df6 "Q" ["Q"]).2.2 (by decide)

/-! ## Claim C7: the series-assignment rule -/

/-- C7 counterexample: the code decides "more than one crime type" by the
LENGTH of the selection list, not by the number of DISTINCT selected crime
types.  With the selection ["Burglary", "Burglary"] only one distinct
crime type is selected, so the claim requires the location to become the
series dimension; the code still colors by crime type. -/
theorem c7_counterexample :
    (updateTimeSeries df6 [] ["C 001A"] ["Burglary", "Burglary"]).colorArg = "Crime type" ∧
    (["Burglary", "Burglary"] : List String).dedup.length = 1 := by
  refine ⟨by decide, by decide⟩

/-- C7 (amended): for every DUPLICATE-FREE crime-type selection (the shape
a multi-select dropdown produces), the code rule coincides with the claim:
if more than one distinct crime type is selected and the "All Crimes"
sentinel is not among them, crime type becomes the color/series dimension
and the location dimension becomes the line-group dimension; otherwise the
location dimension becomes the series and crime type the line group.  (On
selections with duplicates the code counts the raw list length, see the
counterexample.) -/
theorem c7_amended_series_assignment (df : List CrimeRecord)
    (ct locs sel : List String) (hnd : sel.Nodup) :
    (1 < sel.dedup.length ∧ sel.contains "All Crimes" = false →
      (updateTimeSeries df ct locs sel).colorArg = "Crime type" ∧
      (updateTimeSeries df ct locs sel).lineGroupArg =
        (if ct.contains "combine" then "Common Location" else "LSOA name")) ∧
    (¬ (1 < sel.dedup.length ∧ sel.contains "All Crimes" = false) →
      (updateTimeSeries df ct locs sel).colorArg =
        (if ct.contains "combine" then "Common Location" else "LSOA name") ∧
      (updateTimeSeries df ct locs sel).lineGroupArg = "Crime type") := by
  have hdl : sel.dedup = sel := List.dedup_eq_self.mpr hnd
  have hc : (updateTimeSeries df ct locs sel).colorArg =
      (if (!(sel.isEmpty || (sel.length == 1) || sel.contains "All Crimes")) = true
       then "Crime type"
       else (if ct.contains "combine" then "Common Location" else "LSOA name")) := rfl
  have hl : (updateTimeSeries df ct locs sel).lineGroupArg =
      (if (!(sel.isEmpty || (sel.length == 1) || sel.contains "All Crimes")) = true
       then (if ct.contains "combine" then "Common Location" else "LSOA name")
       else "Crime type") := rfl
  by_cases hm : (sel.isEmpty || (sel.length == 1) || sel.contains "All Crimes") = true
  · constructor
    · rintro ⟨h1, h2⟩
      rw [hdl] at h1
      exfalso
      have hne : sel.isEmpty = false := by
        cases sel with
        | nil => simp at h1
        | cons a t => rfl
      have hlen1 : (sel.length == 1) = false := by
        have hx : sel.length ≠ 1 := by omega
        simp [hx]
      rw [hne, hlen1, h2] at hm
      simp at hm
    · intro _
      rw [hc, hl, hm]
      exact ⟨rfl, rfl⟩
  · have hm' : (sel.isEmpty || (sel.length == 1) || sel.contains "All Crimes") = false :=
      Bool.eq_false_iff.mpr hm
    constructor
    · intro _
      rw [hc, hl, hm']
      exact ⟨rfl, rfl⟩
    · intro hna
      exfalso
      apply hna
      have he : sel.isEmpty = false := by
        cases hie : sel.isEmpty
        · rfl
        · exact absurd (by rw [hie]; rfl) hm
      have hl1 : (sel.length == 1) = false := by
        cases hx : (sel.length == 1)
        · rfl
        · exact absurd (by rw [hx]; simp) hm
      have hcon : sel.contains "All Crimes" = false := by
        cases hx : sel.contains "All Crimes"
        · rfl
        · exact absurd (by rw [hx]; simp) hm
      refine ⟨?_, hcon⟩
      rw [hdl]
      have hnil : sel ≠ [] := by
        cases sel with
        | nil => simp at he
        | cons a t => simp
      have h0 : sel.length ≠ 0 := fun h => hnil (List.length_eq_zero.mp h)
      have h1' : sel.length ≠ 1 := by
        intro h
        rw [h] at hl1
        simp at hl1
      omega

/-- C7 witness: the amended series-assignment rule applied to the
two-crime-type selection of the specification scenario. -/
theorem c7_witness :
    (updateTimeSeries df6 [] ["C 001A"] ["Burglary", "Theft"]).colorArg = "Crime type" ∧
    (updateTimeSeries df6 [] ["C 001A"] ["Burglary", "Theft"]).lineGroupArg =
      (if ([] : List String).contains "combine" then "Common Location" else "LSOA name") :=
  (c7_amended_series_assignment df6 [] ["C 001A"] ["Burglary", "Theft"]
    (by decide)).1 (by decide)

/-! ## Claim C8: selection repair in the time-series callback -/

/-- C8: the time-series callback rebuilds the option list as the sorted,
duplicate-free value set of the active location dimension and returns it;
if the incoming selection is empty or contains any value outside that
value set, it is replaced by the single-element list holding the first
value of the sorted value set (the minimum); a non-empty all-valid
selection is returned unchanged.  The dataset is assumed non-empty (on an
empty dataset the source raises an IndexError at `loc_list[0]`). -/
theorem c8_selection_repair (df : List CrimeRecord)
    (ct sel crimes : List String) (hdf : df ≠ []) :
    ((updateTimeSeries df ct sel crimes).locationOptions =
        tsLocList (ct.contains "combine") df ∧
      List.Sorted (fun a b => strLe a b = true) (tsLocList (ct.contains "combine") df) ∧
      (tsLocList (ct.contains "combine") df).Nodup ∧
      (∀ r ∈ df, tsLocOf (ct.contains "combine") r ∈ tsLocList (ct.contains "combine") df)) ∧
    ((sel.isEmpty ||
        sel.any (fun l => !((tsLocList (ct.contains "combine") df).contains l))) = true →
      (updateTimeSeries df ct sel crimes).selectedLocations =
        [(tsLocList (ct.contains "combine") df).headI] ∧
      (tsLocList (ct.contains "combine") df).headI ∈ tsLocList (ct.contains "combine") df ∧
      (∀ l ∈ tsLocList (ct.contains "combine") df,
        strLe (tsLocList (ct.contains "combine") df).headI l = true)) ∧
    ((sel.isEmpty ||
        sel.any (fun l => !((tsLocList (ct.contains "combine") df).contains l))) = false →
      (updateTimeSeries df ct sel crimes).selectedLocations = sel) := by
  have hmem : ∀ r ∈ df, tsLocOf (ct.contains "combine") r ∈
      tsLocList (ct.contains "combine") df := by
    intro r hr
    have h1 : tsLocOf (ct.contains "combine") r ∈ df.map (tsLocOf (ct.contains "combine")) :=
      List.mem_map_of_mem _ hr
    have h2 : tsLocOf (ct.contains "combine") r ∈ (df.map (tsLocOf (ct.contains "combine"))).dedup :=
      List.mem_dedup.mpr h1
    exact ((sortStrings_perm _).mem_iff).mpr h2
  have hne : tsLocList (ct.contains "combine") df ≠ [] := by
    intro h0
    cases df with
    | nil => exact hdf rfl
    | cons r t =>
      have := hmem r (List.mem_cons_self r t)
      rw [h0] at this
      cases this
  have hsel : (updateTimeSeries df ct sel crimes).selectedLocations =
      (if (sel.isEmpty ||
          sel.any (fun l => !((tsLocList (ct.contains "combine") df).contains l))) = true
       then [(tsLocList (ct.contains "combine") df).headI] else sel) := rfl
  refine ⟨⟨rfl, sortStrings_sorted _,
    (sortStrings_perm _).symm.nodup (List.nodup_dedup _), hmem⟩, ?_, ?_⟩
  · intro hcond
    refine ⟨by rw [hsel, if_pos hcond], ?_, ?_⟩
    · cases hll : tsLocList (ct.contains "combine") df with
      | nil => exact absurd hll hne
      | cons a t =>
        rw [List.headI]
        exact List.mem_cons_self a t
    · intro l hl
      exact sorted_headI_le (sortStrings_sorted _) hl
  · intro hcond
    rw [hsel, hcond]
    rfl

/-- A concrete two-record dataset used to witness the selection repair. -/
def df8 : List CrimeRecord :=
  [⟨some "x1", "2025-01", "Burglary", "B 001A", none, none, none⟩,
   ⟨some "x2", "2025-01", "Theft", "A 001B", none, none, none⟩]

/-- C8 witness: an invalid selection on a concrete dataset is replaced by
the first value of the sorted value set. -/
theorem c8_witness :
    (updateTimeSeries df8 [] ["BOGUS"] ["All Crimes"]).selectedLocations =
      [(tsLocList (([] : List String).contains "combine") df8).headI] ∧
    (tsLocList (([] : List String).contains "combine") df8).headI ∈
      tsLocList (([] : List String).contains "combine") df8 := by
  have h := (c8_selection_repair df8 [] ["BOGUS"] ["All Crimes"] (by decide)).2.1 (by decide)
  exact ⟨h.1, h.2.1⟩

end CrimeDashboard
